import Mathlib

/-!
A shallow embedding of the float-safety Solana program (src/lib.rs,
src/float_ops.rs, src/double_ops.rs) and proofs of its decode/dispatch
contract.

IEEE-754 binary32 and binary64 values are modelled by their raw bit
patterns, as natural numbers.  The hardware arithmetic primitives
(addition, multiplication, division, square root on bit patterns) are kept
abstract as the fields of `FPOps`; every theorem quantifies over an
arbitrary implementation, so what is proved is exactly the program's
structure: the wire decoding, the opcode dispatch, the error policy, and
the fact that each numeric result is a single application of the
corresponding primitive with no intermediate rounding.  The one comparison
the program itself performs on float values, the divisor test written as a
comparison with zero, is concrete: IEEE-754 equality with 0.0 holds for
exactly the two bit patterns of +0.0 and -0.0, and for no NaN.
-/

/-- The floating-point primitives, one implementation per format, acting on
raw bit patterns.  An IEEE-754 conforming host supplies one instance for
binary32 and one for binary64. -/
structure FPOps where
  add : Nat → Nat → Nat
  mul : Nat → Nat → Nat
  div : Nat → Nat → Nat
  sqrt : Nat → Nat

/-- The comparison with zero on a binary32 bit pattern: IEEE-754
equality with 0.0 holds exactly for +0.0 (pattern 0) and -0.0
(pattern 2^31); every NaN compares unequal. -/
def f32EqZero (b : Nat) : Bool := b == 0 || b == 2 ^ 31

/-- The comparison with zero on a binary64 bit pattern: true exactly for
+0.0 (pattern 0) and -0.0 (pattern 2^63). -/
def f64EqZero (b : Nat) : Bool := b == 0 || b == 2 ^ 63

/-- src/float_ops.rs: addition of two binary32 values. -/
def add_floats (ops : FPOps) (a b : Nat) : Nat := ops.add a b

/-- src/float_ops.rs: multiplication of two binary32 values. -/
def multiply_floats (ops : FPOps) (a b : Nat) : Nat := ops.mul a b

/-- src/float_ops.rs: division of two binary32 values, rejecting a divisor
that compares equal to zero. -/
def divide_floats (ops : FPOps) (a b : Nat) : Except String Nat :=
  if f32EqZero b then Except.error "Division by zero"
  else Except.ok (ops.div a b)

/-- src/float_ops.rs: square root of a binary32 value. -/
def sqrt_float (ops : FPOps) (a : Nat) : Nat := ops.sqrt a

/-- src/double_ops.rs: addition of two binary64 values. -/
def add_doubles (ops : FPOps) (a b : Nat) : Nat := ops.add a b

/-- src/double_ops.rs: multiplication of two binary64 values. -/
def multiply_doubles (ops : FPOps) (a b : Nat) : Nat := ops.mul a b

/-- src/double_ops.rs: division of two binary64 values, rejecting a divisor
that compares equal to zero. -/
def divide_doubles (ops : FPOps) (a b : Nat) : Except String Nat :=
  if f64EqZero b then Except.error "Division by zero"
  else Except.ok (ops.div a b)

/-- The variants of `solana_program::program_error::ProgramError` that are
relevant here, together with several of the other variants of that type, so
that the claim that only two of them ever escape the program is not
vacuous. -/
inductive ProgramError where
  | Custom (code : Nat)
  | InvalidArgument
  | InvalidInstructionData
  | InvalidAccountData
  | AccountDataTooSmall
  | InsufficientFunds
  | IncorrectProgramId
  | MissingRequiredSignature
  | UninitializedAccount
  | NotEnoughAccountKeys
  deriving DecidableEq

/-- One trace line emitted by the program through the host's logging
facility.  Each success branch of the dispatcher logs the operation, the
two operands and the computed result; this is the only channel on which
the computed value is observable. -/
inductive TraceMsg where
  | addMsg (a b result : Nat)
  | mulMsg (a b result : Nat)
  | divMsg (a b result : Nat)
  deriving DecidableEq

/-- Assemble four little-endian bytes into a 32-bit pattern, as
`f32::from_le_bytes` does on the byte level. -/
def from_le_bytes (b0 b1 b2 b3 : Nat) : Nat :=
  b0 + 2 ^ 8 * b1 + 2 ^ 16 * b2 + 2 ^ 24 * b3

/-- Operand A of a payload: bytes 1..5, little-endian. -/
def operandA (d : List Nat) : Nat :=
  from_le_bytes (d.getD 1 0) (d.getD 2 0) (d.getD 3 0) (d.getD 4 0)

/-- Operand B of a payload: bytes 5..9, little-endian. -/
def operandB (d : List Nat) : Nat :=
  from_le_bytes (d.getD 5 0) (d.getD 6 0) (d.getD 7 0) (d.getD 8 0)

/-- src/lib.rs: the program entry point.  The result is the returned
status paired with the emitted trace lines.  The slice-to-array
conversions of the source always succeed once the length check has passed,
so their error arm never fires and is not represented. -/
def process_instruction (ops : FPOps) (_program_id : Nat)
    (_accounts : List Nat) (instruction_data : List Nat) :
    Except ProgramError Unit × List TraceMsg :=
  if instruction_data.isEmpty then
    (Except.error ProgramError.InvalidInstructionData, [])
  else
    let instruction_type := instruction_data.headD 0
    if instruction_data.length < 9 then
      (Except.error ProgramError.InvalidInstructionData, [])
    else
      let a := operandA instruction_data
      let b := operandB instruction_data
      match instruction_type with
      | 0 =>
        let result := add_floats ops a b
        (Except.ok (), [TraceMsg.addMsg a b result])
      | 1 =>
        let result := multiply_floats ops a b
        (Except.ok (), [TraceMsg.mulMsg a b result])
      | 2 =>
        match divide_floats ops a b with
        | Except.ok result => (Except.ok (), [TraceMsg.divMsg a b result])
        | Except.error _ => (Except.error ProgramError.InvalidArgument, [])
      | _ => (Except.error ProgramError.InvalidInstructionData, [])

/-- Sequential processing of a batch of payloads.  The program keeps no
state between calls (no statics, no mutation anywhere in the crate), so a
sequence of invocations is the map of `process_instruction` over the
payload sequence. -/
def processMany (ops : FPOps) (pid : Nat) (accs : List Nat)
    (payloads : List (List Nat)) :
    List (Except ProgramError Unit × List TraceMsg) :=
  payloads.map (process_instruction ops pid accs)

/-- A trivial implementation of the primitives, used only to instantiate
universally quantified theorems at concrete inputs. -/
def zeroOps : FPOps := ⟨fun _ _ => 0, fun _ _ => 0, fun _ _ => 0, fun _ => 0⟩

/-- C10: the outcome of `process_instruction` depends only on the
instruction bytes; the program id and account arguments are never read. -/
theorem process_ignores_context (ops : FPOps) (pid₁ pid₂ : Nat)
    (accs₁ accs₂ : List Nat) (d : List Nat) :
    process_instruction ops pid₁ accs₁ d = process_instruction ops pid₂ accs₂ d :=
  rfl

/-- C6: processing is deterministic and stateless: the outcome of a payload
is bit-identical (status and logged value alike) no matter what sequence of
earlier calls preceded it, and always equals the one-shot result on those
bytes. -/
theorem process_deterministic_stateless (ops : FPOps) (pid : Nat)
    (accs : List Nat) (h₁ h₂ : List (List Nat)) (d : List Nat) :
    (processMany ops pid accs (h₁ ++ [d])).getLast? =
      (processMany ops pid accs (h₂ ++ [d])).getLast? ∧
    (processMany ops pid accs (h₁ ++ [d])).getLast? =
      some (process_instruction ops pid accs d) := by
  constructor <;> simp [processMany]

/-- C1: a payload of length at least 9 with opcode 0 or 1 succeeds, and the
value it computes (observable on the trace) is a single application of the
binary32 addition, respectively multiplication, primitive to the operands
decoded little-endian from bytes 1..5 and 5..9. -/
theorem process_add_mul_single_op (ops : FPOps) (pid : Nat) (accs : List Nat)
    (d : List Nat) (hlen : 9 ≤ d.length)
    (hop : d.headD 0 = 0 ∨ d.headD 0 = 1) :
    process_instruction ops pid accs d =
      if d.headD 0 = 0 then
        (Except.ok (), [TraceMsg.addMsg (operandA d) (operandB d)
          (ops.add (operandA d) (operandB d))])
      else
        (Except.ok (), [TraceMsg.mulMsg (operandA d) (operandB d)
          (ops.mul (operandA d) (operandB d))]) := by
  cases d with
  | nil => simp at hlen
  | cons x xs =>
    have hx : ¬ (x :: xs).length < 9 := by omega
    rcases hop with h | h <;> simp_all [process_instruction, add_floats, multiply_floats]

/-- Concrete instantiation of C1: opcode 0, both operands the bit pattern 0. -/
theorem process_add_mul_single_op_witness :
    process_instruction zeroOps 0 [] [0, 0, 0, 0, 0, 0, 0, 0, 0] =
      (Except.ok (), [TraceMsg.addMsg 0 0 (zeroOps.add 0 0)]) := by
  have h := process_add_mul_single_op zeroOps 0 [] [0, 0, 0, 0, 0, 0, 0, 0, 0]
    (by decide) (Or.inl (by decide))
  simpa [operandA, operandB, from_le_bytes] using h

/-- C2: a payload of length at least 9 with opcode 2 whose divisor operand
has the bit pattern of +0.0 or -0.0 fails with InvalidArgument, whatever
the dividend bytes are (NaN and infinity included). -/
theorem process_divide_zero_divisor (ops : FPOps) (pid : Nat)
    (accs : List Nat) (d : List Nat) (hlen : 9 ≤ d.length)
    (hop : d.headD 0 = 2) (hb : operandB d = 0 ∨ operandB d = 2 ^ 31) :
    process_instruction ops pid accs d =
      (Except.error ProgramError.InvalidArgument, []) := by
  cases d with
  | nil => simp at hlen
  | cons x xs =>
    have hx : ¬ (x :: xs).length < 9 := by omega
    have hz : f32EqZero (operandB (x :: xs)) = true := by
      rcases hb with h | h <;> simp [f32EqZero, h]
    simp_all [process_instruction, divide_floats]

/-- Concrete instantiation of C2: opcode 2, NaN dividend (pattern
0x7FC00000), divisor +0.0. -/
theorem process_divide_zero_divisor_witness :
    process_instruction zeroOps 0 [] [2, 0, 0, 192, 127, 0, 0, 0, 0] =
      (Except.error ProgramError.InvalidArgument, []) :=
  process_divide_zero_divisor zeroOps 0 [] [2, 0, 0, 192, 127, 0, 0, 0, 0]
    (by decide) (by decide) (Or.inl (by decide))

/-- C3: a payload of length at least 9 with opcode 2 whose divisor operand
is neither +0.0 nor -0.0 (subnormal, infinite and NaN divisors included)
succeeds, and the computed value is a single application of the binary32
division primitive, whatever pattern (infinity or NaN included) that
application yields. -/
theorem process_divide_nonzero_divisor (ops : FPOps) (pid : Nat)
    (accs : List Nat) (d : List Nat) (hlen : 9 ≤ d.length)
    (hop : d.headD 0 = 2) (hb0 : operandB d ≠ 0) (hb1 : operandB d ≠ 2 ^ 31) :
    process_instruction ops pid accs d =
      (Except.ok (), [TraceMsg.divMsg (operandA d) (operandB d)
        (ops.div (operandA d) (operandB d))]) := by
  cases d with
  | nil => simp at hlen
  | cons x xs =>
    have hx : ¬ (x :: xs).length < 9 := by omega
    have h31 : (2 : Nat) ^ 31 = 2147483648 := by norm_num
    rw [h31] at hb1
    have hz : f32EqZero (operandB (x :: xs)) = false := by
      simp [f32EqZero, hb0, hb1]
    simp_all [process_instruction, divide_floats]

/-- Concrete instantiation of C3: opcode 2, NaN dividend, subnormal divisor
(pattern 1). -/
theorem process_divide_nonzero_divisor_witness :
    process_instruction zeroOps 0 [] [2, 0, 0, 192, 127, 1, 0, 0, 0] =
      (Except.ok (), [TraceMsg.divMsg 2143289344 1 (zeroOps.div 2143289344 1)]) := by
  have h := process_divide_nonzero_divisor zeroOps 0 []
    [2, 0, 0, 192, 127, 1, 0, 0, 0] (by decide) (by decide) (by decide) (by decide)
  simpa [operandA, operandB, from_le_bytes] using h

/-- C5: a payload of length at least 9 whose opcode byte is none of 0, 1, 2
fails with InvalidInstructionData, whatever the operand bytes are. -/
theorem process_unknown_opcode (ops : FPOps) (pid : Nat) (accs : List Nat)
    (d : List Nat) (hlen : 9 ≤ d.length) (h0 : d.headD 0 ≠ 0)
    (h1 : d.headD 0 ≠ 1) (h2 : d.headD 0 ≠ 2) :
    process_instruction ops pid accs d =
      (Except.error ProgramError.InvalidInstructionData, []) := by
  cases d with
  | nil => simp at hlen
  | cons x xs =>
    have hx : ¬ (x :: xs).length < 9 := by omega
    simp only [List.headD_cons] at h0 h1 h2
    match x, h0, h1, h2 with
    | n + 3, _, _, _ => simp_all [process_instruction]

/-- Concrete instantiation of C5: opcode 5 with operands 1.0 and 1.0 (the
example scenario of the specification). -/
theorem process_unknown_opcode_witness :
    process_instruction zeroOps 0 [] [5, 0, 0, 128, 63, 0, 0, 128, 63] =
      (Except.error ProgramError.InvalidInstructionData, []) :=
  process_unknown_opcode zeroOps 0 [] [5, 0, 0, 128, 63, 0, 0, 128, 63]
    (by decide) (by decide) (by decide) (by decide)

/-- C4 fails as stated: a payload of length 9 need not succeed.  This
length-9 payload carries opcode 3 and is rejected with
InvalidInstructionData. -/
theorem process_length_nine_can_fail :
    ([3, 0, 0, 0, 0, 0, 0, 0, 0] : List Nat).length = 9 ∧
      process_instruction zeroOps 0 [] [3, 0, 0, 0, 0, 0, 0, 0, 0] =
        (Except.error ProgramError.InvalidInstructionData, []) :=
  ⟨rfl, rfl⟩

/-- C4, amended: every payload of length 0..8 fails with
InvalidInstructionData regardless of content; a payload of length at least
9 is never rejected for its length: its outcome equals that of its first 9
bytes (trailing bytes have no effect), and it succeeds whenever its opcode
is 0 or 1, or is 2 with a divisor pattern that does not compare equal to
zero. -/
theorem process_length_boundary (ops : FPOps) (pid : Nat) (accs : List Nat)
    (d : List Nat) :
    (d.length < 9 → process_instruction ops pid accs d =
        (Except.error ProgramError.InvalidInstructionData, [])) ∧
    (9 ≤ d.length →
      process_instruction ops pid accs d =
        process_instruction ops pid accs (d.take 9) ∧
      ((d.headD 0 = 0 ∨ d.headD 0 = 1 ∨
          (d.headD 0 = 2 ∧ f32EqZero (operandB d) = false)) →
        (process_instruction ops pid accs d).1 = Except.ok ())) := by
  constructor
  · intro hlt
    cases d with
    | nil => rfl
    | cons x xs =>
      simp only [process_instruction]
      rw [if_neg (by simp), if_pos hlt]
  · intro hge
    rcases d with _ | ⟨b0, (_ | ⟨b1, (_ | ⟨b2, (_ | ⟨b3, (_ | ⟨b4, (_ |
      ⟨b5, (_ | ⟨b6, (_ | ⟨b7, (_ | ⟨b8, rest⟩)⟩)⟩)⟩)⟩)⟩)⟩)⟩)⟩
    all_goals try (exfalso; revert hge; simp; done)
    have hx : ((b0::b1::b2::b3::b4::b5::b6::b7::b8::rest).length < 9) = False := by
      simp only [List.length_cons, eq_iff_iff, iff_false]
      omega
    constructor
    · simp [process_instruction, hx, operandA, operandB]
    · intro hop
      rcases hop with h | h | ⟨h, hz⟩ <;>
        simp only [List.headD_cons] at h
      · subst h
        simp only [process_instruction]
        rw [if_neg (by simp), if_neg (by simp only [List.length_cons]; omega)]
        simp
      · subst h
        simp only [process_instruction]
        rw [if_neg (by simp), if_neg (by simp only [List.length_cons]; omega)]
        simp
      · subst h
        simp only [process_instruction, divide_floats]
        rw [if_neg (by simp), if_neg (by simp only [List.length_cons]; omega), hz]
        simp

/-- Concrete instantiation of the amended C4: a 3-byte payload is rejected
with InvalidInstructionData. -/
theorem process_length_boundary_witness :
    process_instruction zeroOps 0 [] [1, 2, 3] =
      (Except.error ProgramError.InvalidInstructionData, []) :=
  (process_length_boundary zeroOps 0 [] [1, 2, 3]).1 (by decide)

/-- C7: whenever `process_instruction` fails, the error is one of exactly
two codes: InvalidInstructionData or InvalidArgument. -/
theorem process_error_codes (ops : FPOps) (pid : Nat) (accs : List Nat)
    (d : List Nat) (e : ProgramError)
    (he : (process_instruction ops pid accs d).1 = Except.error e) :
    e = ProgramError.InvalidInstructionData ∨ e = ProgramError.InvalidArgument := by
  simp only [process_instruction] at he
  repeat' split at he
  all_goals simp_all

/-- Concrete instantiation of C7: the empty payload fails, and its error is
one of the two codes. -/
theorem process_error_codes_witness :
    (process_instruction zeroOps 0 [] []).1 =
        Except.error ProgramError.InvalidInstructionData ∧
      (ProgramError.InvalidInstructionData = ProgramError.InvalidInstructionData ∨
        ProgramError.InvalidInstructionData = ProgramError.InvalidArgument) :=
  ⟨rfl, process_error_codes zeroOps 0 [] [] ProgramError.InvalidInstructionData rfl⟩

/-- C8: the binary64 kernel mirrors the binary32 one: addition and
multiplication are a single application of the corresponding primitive, and
division fails (with the very same error) exactly when the divisor bit
pattern is +0.0 or -0.0 for the respective format, returning a single
application of the division primitive otherwise. -/
theorem double_ops_mirror_float_ops (ops : FPOps) (a b : Nat) :
    add_doubles ops a b = ops.add a b ∧
    multiply_doubles ops a b = ops.mul a b ∧
    (divide_doubles ops a b = Except.error "Division by zero" ↔
      (b = 0 ∨ b = 2 ^ 63)) ∧
    ((b = 0 ∨ b = 2 ^ 63) ∨ divide_doubles ops a b = Except.ok (ops.div a b)) ∧
    (divide_floats ops a b = Except.error "Division by zero" ↔
      (b = 0 ∨ b = 2 ^ 31)) := by
  have h64 : f64EqZero b = true ↔ (b = 0 ∨ b = 2 ^ 63) := by
    unfold f64EqZero
    rw [Bool.or_eq_true, beq_iff_eq, beq_iff_eq]
  have h32 : f32EqZero b = true ↔ (b = 0 ∨ b = 2 ^ 31) := by
    unfold f32EqZero
    rw [Bool.or_eq_true, beq_iff_eq, beq_iff_eq]
  refine ⟨rfl, rfl, ?_, ?_, ?_⟩
  · constructor
    · intro hE
      by_contra hb
      have hfalse : f64EqZero b = false := by
        cases hcase : f64EqZero b with
        | false => rfl
        | true => exact absurd (h64.mp hcase) hb
      unfold divide_doubles at hE
      rw [hfalse] at hE
      simp at hE
    · intro hb
      unfold divide_doubles
      rw [h64.mpr hb]
      simp
  · cases hcase : f64EqZero b with
    | true => exact Or.inl (h64.mp hcase)
    | false =>
      refine Or.inr ?_
      unfold divide_doubles
      rw [hcase]
      simp
  · constructor
    · intro hE
      by_contra hb
      have hfalse : f32EqZero b = false := by
        cases hcase : f32EqZero b with
        | false => rfl
        | true => exact absurd (h32.mp hcase) hb
      unfold divide_floats at hE
      rw [hfalse] at hE
      simp at hE
    · intro hb
      unfold divide_floats
      rw [h32.mpr hb]
      simp

/-- A binary32 bit pattern denoting a NaN: maximal exponent field with a
nonzero mantissa field. -/
def isNaNF32 (p : Nat) : Prop :=
  p < 2 ^ 32 ∧ (p / 2 ^ 23) % 2 ^ 8 = 255 ∧ p % 2 ^ 23 ≠ 0

instance : DecidablePred isNaNF32 := fun p => by
  unfold isNaNF32; infer_instance

/-- A binary32 bit pattern denoting a negative value: sign bit set, and
neither -0.0 nor a NaN. -/
def isNegF32 (p : Nat) : Prop :=
  p < 2 ^ 32 ∧ 2 ^ 31 ≤ p ∧ p ≠ 2 ^ 31 ∧ ¬ isNaNF32 p

instance : DecidablePred isNegF32 := fun p => by
  unfold isNegF32; infer_instance

/-- C9: the square-root entry is a single application of the square-root
primitive with no error channel, so a primitive that conforms to IEEE-754
on negative inputs (NaN result) gives that behaviour to `sqrt_float`
unchanged; and no opcode of `process_instruction` reaches it: every
payload's outcome is unchanged when the square-root field is replaced by an
arbitrary function. -/
theorem sqrt_exact_and_unreachable (ops : FPOps) (f : Nat → Nat)
    (pid a : Nat) (accs : List Nat) (d : List Nat)
    (hconf : ∀ x, isNegF32 x → isNaNF32 (ops.sqrt x)) :
    sqrt_float ops a = ops.sqrt a ∧
    (isNegF32 a → isNaNF32 (sqrt_float ops a)) ∧
    process_instruction (FPOps.mk ops.add ops.mul ops.div f) pid accs d =
      process_instruction ops pid accs d :=
  ⟨rfl, hconf a, rfl⟩

/-- An implementation whose square root is constantly the quiet-NaN pattern
0x7FC00000, used to instantiate C9 concretely. -/
def nanSqrtOps : FPOps :=
  ⟨fun _ _ => 0, fun _ _ => 0, fun _ _ => 0, fun _ => 2143289344⟩

/-- Concrete instantiation of C9 at pattern 5 and the empty payload. -/
theorem sqrt_exact_and_unreachable_witness :
    sqrt_float nanSqrtOps 5 = nanSqrtOps.sqrt 5 ∧
    (isNegF32 5 → isNaNF32 (sqrt_float nanSqrtOps 5)) ∧
    process_instruction
        (FPOps.mk nanSqrtOps.add nanSqrtOps.mul nanSqrtOps.div (fun _ => 0))
        0 [] [] =
      process_instruction nanSqrtOps 0 [] [] :=
  sqrt_exact_and_unreachable nanSqrtOps (fun _ => 0) 0 5 [] []
    (fun x _ => show isNaNF32 2143289344 by decide)
